import Mathlib

/-!
Verification of the filtering and aggregation engine of the housing dashboard
(src/housing_app.py) against its natural-language specification.

The dataset is a pandas `DataFrame` whose rows we model as a `Listing`
structure; numeric columns are modelled as exact rationals.  The sidebar
controls of the app produce, on every render cycle, a constraint set
(price/beds/baths/sqft ranges plus a multiselect of cities) modelled as
`Constraints`.  The operations studied here are

* `filtered_data` (housing_app.py lines 75-85): a boolean-mask conjunction;
* the map tab's tagging (lines 170-176): `df["Selected"] = df["City"].isin(cities)`
  followed by `df["Color"] = df["Selected"].apply(get_color)`, which assigns
  new columns into the shared dataframe `df`;
* the tab-1 summary (lines 108-114): a `filtered_data.empty` guard around
  the four column means;
* `city_avg_price` (line 242):
  `df.groupby("City")["Price"].mean().sort_values(ascending=False)`;
* `city_listings` (lines 295-304): `value_counts(normalize=True) * 100`,
  relabelling of groups below the threshold to `"Other"`, and a final
  `groupby("City").sum()`.

Pandas-specific ordering facts baked into the embedding (each noted again at
its definition): `groupby(..., sort=True)` (the default) lists group keys in
ascending lexicographic order; `Series.sort_values(ascending=False)` computes
a stable ascending argsort and reverses it, so equal values end up in reverse
of their pre-sort order (pandas `nargsort`; the value arrays in this app are
far below numpy's 16-element introsort cutoff, beneath which the ascending
argsort is a stable insertion sort).
-/

/-- One row of `housing_with_coordinates.csv`.  The `selected` and `color`
fields model the `"Selected"` and `"Color"` columns that the map tab assigns
into the dataframe; a freshly loaded dataset has them absent (`none`). -/
structure Listing where
  address : String
  city : String
  price : ℚ
  beds : ℚ
  baths : ℚ
  sqft : ℚ
  latitude : Option ℚ := none
  longitude : Option ℚ := none
  selected : Option Bool := none
  color : Option (List ℤ) := none
deriving DecidableEq

/-- The sidebar state of one render cycle: the two endpoints of each range
slider and the list selected in the city multiselect. -/
structure Constraints where
  priceMin : ℚ
  priceMax : ℚ
  cities : List String
  bedsMin : ℚ
  bedsMax : ℚ
  bathsMin : ℚ
  bathsMax : ℚ
  sqftMin : ℚ
  sqftMax : ℚ
deriving DecidableEq

/-- The boolean mask of housing_app.py lines 76-84: the conjunction of the
two price comparisons, `df["City"].isin(cities)`, the beds, baths and square
footage range comparisons, evaluated on one row. -/
def rowMatches (c : Constraints) (r : Listing) : Bool :=
  decide (c.priceMin ≤ r.price) && decide (r.price ≤ c.priceMax) &&
  c.cities.contains r.city &&
  decide (c.bedsMin ≤ r.beds) && decide (r.beds ≤ c.bedsMax) &&
  decide (c.bathsMin ≤ r.baths) && decide (r.baths ≤ c.bathsMax) &&
  decide (c.sqftMin ≤ r.sqft) && decide (r.sqft ≤ c.sqftMax)

/-- Model of `filtered_data` (housing_app.py lines 75-85): boolean-mask
selection, which keeps exactly the rows whose mask entry is true, in
dataframe order. -/
def filteredData (df : List Listing) (c : Constraints) : List Listing :=
  df.filter (rowMatches c)

/-- The constraint conjunction as the specification states it, written as a
proposition: `price_min ≤ Price ≤ price_max`, `City ∈ selected_cities`,
`beds_min ≤ Beds ≤ beds_max`, `baths_min ≤ Baths ≤ baths_max`,
`sqft_min ≤ Square Feet ≤ sqft_max`. -/
def matchesSpec (c : Constraints) (r : Listing) : Prop :=
  (c.priceMin ≤ r.price ∧ r.price ≤ c.priceMax) ∧
  r.city ∈ c.cities ∧
  (c.bedsMin ≤ r.beds ∧ r.beds ≤ c.bedsMax) ∧
  (c.bathsMin ≤ r.baths ∧ r.baths ≤ c.bathsMax) ∧
  (c.sqftMin ≤ r.sqft ∧ r.sqft ≤ c.sqftMax)

/-- A sample row used in concrete instantiations. -/
def mkRow (city : String) (price : ℚ) : Listing :=
  { address := "1 Main St", city := city, price := price,
    beds := 3, baths := 2, sqft := 1500 }

/-- A permissive constraint set selecting the given cities. -/
def mkCons (cities : List String) : Constraints :=
  { priceMin := 0, priceMax := 1000000, cities := cities,
    bedsMin := 0, bedsMax := 10, bathsMin := 0, bathsMax := 10,
    sqftMin := 0, sqftMax := 100000 }

/-- Model of `get_color` (housing_app.py lines 173-174): green RGBA for a
selected row, red RGBA otherwise. -/
def get_color (selected : Bool) : List ℤ :=
  if selected then [0, 255, 0, 160] else [200, 30, 0, 160]

/-- State of `df` after `df["Selected"] = df["City"].isin(cities)`
(housing_app.py line 170). -/
def tagSelected (df : List Listing) (cities : List String) : List Listing :=
  df.map fun r => { r with selected := some (cities.contains r.city) }

/-- State of `df` after `df["Color"] = df["Selected"].apply(get_color)`
(housing_app.py line 176). -/
def tagColor (df : List Listing) : List Listing :=
  df.map fun r => { r with color := r.selected.map get_color }

/-- The state of the shared dataframe `df` after the map tab's two column
assignments have run. -/
def tab4State (df : List Listing) (cities : List String) : List Listing :=
  tagColor (tagSelected df cities)

/-- Projection onto the columns present at load time, forgetting the two
derived columns the map tab assigns. -/
def coreOf (r : Listing) : Listing :=
  { r with selected := none, color := none }

/-- The per-column arithmetic mean that `Series.mean()` computes on a
non-empty column. -/
def colMean (xs : List ℚ) : ℚ :=
  xs.sum / (xs.length : ℚ)

/-- The four summary statistics of tab 1. -/
structure Summary where
  avgPrice : ℚ
  avgSqft : ℚ
  avgBeds : ℚ
  avgBaths : ℚ
deriving DecidableEq

/-- Tab 1 (housing_app.py lines 108-114): when `filtered_data.empty` the app
writes the "No data available for the selected filters." message (modelled as
`none`); otherwise it reports the means of Price, Square Feet, Beds and
Baths over the filtered view. -/
def tab1Summary (view : List Listing) : Option Summary :=
  if view.isEmpty then none
  else some
    { avgPrice := colMean (view.map Listing.price),
      avgSqft := colMean (view.map Listing.sqft),
      avgBeds := colMean (view.map Listing.beds),
      avgBaths := colMean (view.map Listing.baths) }

/-- Lexicographic comparison (less-or-equal) of character lists by code
point: the order Python applies to city-name strings when pandas sorts group
keys. -/
def lleb : List Char → List Char → Bool
  | [], _ => true
  | _ :: _, [] => false
  | a :: as, b :: bs => if a < b then true else if b < a then false else lleb as bs

/-- Lexicographic less-or-equal on strings. -/
def strLe (a b : String) : Bool := lleb a.data b.data

/-- The group-key order as a binary relation on strings. -/
def sLe (a b : String) : Prop := strLe a b = true

instance : DecidableRel sLe := fun a b => inferInstanceAs (Decidable (strLe a b = true))

/-- Distinct values of a column in order of first appearance, with the
already-seen values carried in an accumulator. -/
def firstSeenAux (seen : List String) : List String → List String
  | [] => []
  | c :: rest => if c ∈ seen then firstSeenAux seen rest else c :: firstSeenAux (c :: seen) rest

/-- Distinct values of a column in order of first appearance. -/
def firstSeen (l : List String) : List String := firstSeenAux [] l

/-- Mean price of one city's group, over all rows of the dataset. -/
def cityMeanPrice (rows : List Listing) (c : String) : ℚ :=
  colMean ((rows.filter fun r => r.city == c).map Listing.price)

/-- The group keys as `df.groupby("City")` (default `sort=True`) lists them:
the distinct cities in ascending lexicographic order. -/
def sortedCities (rows : List Listing) : List String :=
  List.insertionSort sLe (firstSeen (rows.map Listing.city))

/-- Model of `city_avg_price` (housing_app.py line 242):
`df.groupby("City")["Price"].mean().sort_values(ascending=False)`.
`sort_values(ascending=False)` computes a stable ascending argsort of the
values and reverses it (pandas `nargsort`; the handful of groups here is
far below numpy's introsort cutoff, beneath which the ascending argsort is a
stable insertion sort), so the embedding stably sorts the key-sorted group
means ascending by value and reverses. -/
def cityAvgPrice (rows : List Listing) : List (String × ℚ) :=
  (List.insertionSort (fun p q : String × ℚ => p.2 ≤ q.2)
    ((sortedCities rows).map fun c => (c, cityMeanPrice rows c))).reverse

/-- Modelled from the spec's tie-break words, for comparison with
`cityAvgPrice`: groups in first-seen key order, stably sorted by descending
average, so that equal averages stay in first-seen order. -/
def groupAverageFirstSeen (rows : List Listing) : List (String × ℚ) :=
  List.insertionSort (fun p q : String × ℚ => q.2 ≤ p.2)
    ((firstSeen (rows.map Listing.city)).map fun c => (c, cityMeanPrice rows c))

/-- Strictly ascending by value, ties strictly ascending by key. -/
def lexAsc (p q : String × ℚ) : Prop :=
  p.2 < q.2 ∨ (p.2 = q.2 ∧ sLe p.1 q.1 ∧ p.1 ≠ q.1)

/-- Strictly descending by value, ties strictly descending by key. -/
def lexDesc (p q : String × ℚ) : Prop :=
  q.2 < p.2 ∨ (p.2 = q.2 ∧ sLe q.1 p.1 ∧ q.1 ≠ p.1)

/-- A two-row dataset, one listing in each of two cities, equal prices. -/
def rows4 : List Listing := [mkRow "A" 100, mkRow "B" 100]

/-- One city's percentage share of the listing count:
`df["City"].value_counts(normalize=True) * 100` evaluated at that city. -/
def shareOf (rows : List Listing) (c : String) : ℚ :=
  ((rows.map Listing.city).count c : ℚ) / (rows.length : ℚ) * 100

/-- Model of `city_listings` after housing_app.py lines 295-297: one
(City, Percentage) pair per distinct city.  `value_counts` lists the groups
by descending count, but that order is immaterial to everything that follows
(line 304's groupby orders the final output by label), so the embedding
carries the pairs in first-seen order. -/
def listingShares (rows : List Listing) : List (String × ℚ) :=
  (firstSeen (rows.map Listing.city)).map fun c => (c, shareOf rows c)

/-- Line 301: `City.where(Percentage >= threshold, "Other")` applied to one
pair, keeping the label when its percentage reaches the threshold. -/
def relabelRow (t : ℚ) (p : String × ℚ) : String × ℚ :=
  (if t ≤ p.2 then p.1 else "Other", p.2)

/-- The Percentage total of the pairs carrying the given City label, as the
final `groupby("City").sum()` computes it for one group. -/
def groupSum (l : List (String × ℚ)) (k : String) : ℚ :=
  ((l.filter fun p => p.1 == k).map Prod.snd).sum

/-- Model of `city_listings` after housing_app.py lines 299-304: relabel the
groups below the threshold to "Other", then
`groupby("City", as_index=False).sum()`, which lists the labels in ascending
lexicographic order.  The script fixes the threshold at 2; the spec's
`marketShare` exposes it as a parameter, so the embedding takes it as an
argument. -/
def cityListings (rows : List Listing) (t : ℚ) : List (String × ℚ) :=
  (List.insertionSort sLe
    (firstSeen (((listingShares rows).map (relabelRow t)).map Prod.fst))).map
    fun k => (k, groupSum ((listingShares rows).map (relabelRow t)) k)

/-- Three listings, two in city A and one in city B: A holds two thirds of
the market and B one third. -/
def rows5 : List Listing := [mkRow "A" 100, mkRow "A" 300, mkRow "B" 200]

/-- The label a city's group carries after line 301: its own name when its
share reaches the threshold, "Other" otherwise. -/
def labelOf (rows : List Listing) (t : ℚ) (c : String) : String :=
  if t ≤ shareOf rows c then c else "Other"

theorem rowMatches_iff (c : Constraints) (r : Listing) :
    rowMatches c r = true ↔ matchesSpec c r := by
  simp [rowMatches, matchesSpec, and_assoc]

theorem lleb_total : ∀ a b : List Char, lleb a b = true ∨ lleb b a = true
  | [], _ => Or.inl rfl
  | _ :: _, [] => Or.inr rfl
  | a :: as, b :: bs => by
    rcases lt_trichotomy a b with h | h | h
    · exact Or.inl (by simp [lleb, h])
    · subst h
      rcases lleb_total as bs with h | h
      · exact Or.inl (by simpa [lleb, lt_irrefl] using h)
      · exact Or.inr (by simpa [lleb, lt_irrefl] using h)
    · exact Or.inr (by simp [lleb, h])

theorem lleb_trans : ∀ a b c : List Char, lleb a b = true → lleb b c = true → lleb a c = true
  | [], _, _, _, _ => rfl
  | _ :: _, [], _, h, _ => by simp [lleb] at h
  | _ :: _, _ :: _, [], _, h => by simp [lleb] at h
  | a :: as, b :: bs, c :: cs, h1, h2 => by
    rcases lt_trichotomy a b with hab | hab | hab
    · rcases lt_trichotomy b c with hbc | hbc | hbc
      · simp [lleb, hab.trans hbc]
      · subst hbc; simp [lleb, hab]
      · simp only [lleb] at h2
        rw [if_neg (lt_asymm hbc), if_pos hbc] at h2
        exact absurd h2 (by simp)
    · subst hab
      rcases lt_trichotomy a c with hac | hac | hac
      · simp [lleb, hac]
      · subst hac
        simp only [lleb] at h1 h2 ⊢
        rw [if_neg (lt_irrefl a), if_neg (lt_irrefl a)] at h1 h2 ⊢
        exact lleb_trans as bs cs h1 h2
      · simp only [lleb] at h2
        rw [if_neg (lt_asymm hac), if_pos hac] at h2
        exact absurd h2 (by simp)
    · simp only [lleb] at h1
      rw [if_neg (lt_asymm hab), if_pos hab] at h1
      exact absurd h1 (by simp)

theorem mem_firstSeenAux (a : String) :
    ∀ (l seen : List String), a ∈ firstSeenAux seen l ↔ a ∈ l ∧ a ∉ seen
  | [], seen => by simp [firstSeenAux]
  | c :: rest, seen => by
    by_cases hc : c ∈ seen
    · rw [firstSeenAux, if_pos hc, mem_firstSeenAux a rest seen]
      constructor
      · rintro ⟨h1, h2⟩; exact ⟨List.mem_cons_of_mem c h1, h2⟩
      · rintro ⟨h1, h2⟩
        rcases List.mem_cons.1 h1 with rfl | h1
        · exact absurd hc h2
        · exact ⟨h1, h2⟩
    · rw [firstSeenAux, if_neg hc]
      constructor
      · intro h
        rcases List.mem_cons.1 h with rfl | h
        · exact ⟨List.mem_cons_self a rest, hc⟩
        · obtain ⟨h1, h2⟩ := (mem_firstSeenAux a rest (c :: seen)).1 h
          exact ⟨List.mem_cons_of_mem c h1,
                 fun hs => h2 (List.mem_cons_of_mem c hs)⟩
      · rintro ⟨h1, h2⟩
        rcases List.mem_cons.1 h1 with rfl | h1
        · exact List.mem_cons_self a _
        · by_cases hac : a = c
          · subst hac; exact List.mem_cons_self a _
          · exact List.mem_cons_of_mem c ((mem_firstSeenAux a rest (c :: seen)).2
              ⟨h1, by simp [List.mem_cons, hac, h2]⟩)

theorem nodup_firstSeenAux : ∀ (l seen : List String), (firstSeenAux seen l).Nodup
  | [], _ => by simp [firstSeenAux]
  | c :: rest, seen => by
    by_cases hc : c ∈ seen
    · rw [firstSeenAux, if_pos hc]; exact nodup_firstSeenAux rest seen
    · rw [firstSeenAux, if_neg hc]
      refine List.nodup_cons.2 ⟨fun hmem => ?_, nodup_firstSeenAux rest (c :: seen)⟩
      exact ((mem_firstSeenAux c rest (c :: seen)).1 hmem).2 (List.mem_cons_self c seen)

theorem mem_firstSeen {a : String} {l : List String} : a ∈ firstSeen l ↔ a ∈ l := by
  simp [firstSeen, mem_firstSeenAux]

theorem nodup_firstSeen (l : List String) : (firstSeen l).Nodup :=
  nodup_firstSeenAux l []

theorem toFinset_firstSeen (l : List String) : (firstSeen l).toFinset = l.toFinset := by
  ext a
  simp [List.mem_toFinset, mem_firstSeen]

theorem toFinset_map_eq_image (f : String → String) (l : List String) :
    (l.map f).toFinset = l.toFinset.image f := by
  ext a
  simp [List.mem_toFinset, Finset.mem_image]

theorem pairwise_lexAsc_orderedInsert (a : String × ℚ) :
    ∀ l : List (String × ℚ), l.Pairwise lexAsc →
      (∀ q ∈ l, q.2 = a.2 → sLe a.1 q.1 ∧ a.1 ≠ q.1) →
      (List.orderedInsert (fun p q => p.2 ≤ q.2) a l).Pairwise lexAsc
  | [], _, _ => by simp [List.orderedInsert, List.pairwise_singleton]
  | b :: t, hs, hk => by
    simp only [List.orderedInsert]
    by_cases hr : a.2 ≤ b.2
    · rw [if_pos hr]
      refine List.pairwise_cons.2 ⟨?_, hs⟩
      intro x hx
      have hax : a.2 ≤ x.2 := by
        rcases List.mem_cons.1 hx with rfl | hx
        · exact hr
        · rcases (List.pairwise_cons.1 hs).1 x hx with h | ⟨h, -⟩
          · exact hr.trans h.le
          · exact hr.trans h.le
      rcases lt_or_eq_of_le hax with h | h
      · exact Or.inl h
      · exact Or.inr ⟨h, hk x hx h.symm⟩
    · rw [if_neg hr]
      have hba : b.2 < a.2 := lt_of_not_le hr
      refine List.pairwise_cons.2 ⟨?_, ?_⟩
      · intro y hy
        rcases (List.mem_orderedInsert (fun p q : String × ℚ => p.2 ≤ q.2)).1 hy with rfl | hy
        · exact Or.inl hba
        · exact (List.pairwise_cons.1 hs).1 y hy
      · exact pairwise_lexAsc_orderedInsert a t (List.pairwise_cons.1 hs).2
          fun q hq hq2 => hk q (List.mem_cons_of_mem b hq) hq2

theorem pairwise_lexAsc_insertionSort :
    ∀ l : List (String × ℚ), l.Pairwise (fun p q => sLe p.1 q.1 ∧ p.1 ≠ q.1) →
      (List.insertionSort (fun p q : String × ℚ => p.2 ≤ q.2) l).Pairwise lexAsc
  | [], _ => by simp
  | a :: l, hl => by
    simp only [List.insertionSort]
    refine pairwise_lexAsc_orderedInsert a _
      (pairwise_lexAsc_insertionSort l (List.pairwise_cons.1 hl).2) ?_
    intro q hq _
    exact (List.pairwise_cons.1 hl).1 q ((List.perm_insertionSort _ l).mem_iff.1 hq)

theorem sortedCities_strict (rows : List Listing) :
    (sortedCities rows).Pairwise fun a b => sLe a b ∧ a ≠ b := by
  have hsorted : (sortedCities rows).Pairwise sLe :=
    @List.sorted_insertionSort String sLe _
      ⟨fun a b => lleb_total a.data b.data⟩
      ⟨fun a b c => lleb_trans a.data b.data c.data⟩
      (firstSeen (rows.map Listing.city))
  have hnodup : (sortedCities rows).Nodup :=
    ((List.perm_insertionSort sLe _).nodup_iff).2 (nodup_firstSeen _)
  exact hsorted.and hnodup

theorem cityAvgPrice_rows4_eval : cityAvgPrice rows4 = [("B", 100), ("A", 100)] := by
  norm_num [cityAvgPrice, sortedCities, rows4, mkRow, firstSeen, firstSeenAux,
    List.insertionSort, List.orderedInsert, sLe, strLe, lleb, cityMeanPrice, colMean,
    List.filter_cons, show ("B" : String) ≠ "A" by decide, show ("A" : String) ≠ "B" by decide]

theorem groupAverageFirstSeen_rows4_eval :
    groupAverageFirstSeen rows4 = [("A", 100), ("B", 100)] := by
  norm_num [groupAverageFirstSeen, rows4, mkRow, firstSeen, firstSeenAux,
    List.insertionSort, List.orderedInsert, cityMeanPrice, colMean,
    List.filter_cons, show ("B" : String) ≠ "A" by decide, show ("A" : String) ≠ "B" by decide]

theorem filter_map_eq {α β : Type} (f : α → β) (p : β → Bool) :
    ∀ l : List α, (l.map f).filter p = (l.filter fun a => p (f a)).map f
  | [] => rfl
  | a :: l => by
    by_cases h : p (f a) <;>
      simp [List.filter_cons, h, filter_map_eq f p l]

theorem sum_groupSum (S : Finset String) :
    ∀ l : List (String × ℚ), (∀ p ∈ l, p.1 ∈ S) →
      (∑ k in S, groupSum l k) = (l.map Prod.snd).sum
  | [], _ => by simp [groupSum]
  | p :: l, h => by
    have hrec := sum_groupSum S l fun q hq => h q (List.mem_cons_of_mem p hq)
    have hco : ∀ k, groupSum (p :: l) k = (if p.1 = k then p.2 else 0) + groupSum l k := by
      intro k
      by_cases hk : p.1 = k
      · simp [groupSum, List.filter_cons, hk]
      · simp [groupSum, List.filter_cons, hk]
    calc (∑ k in S, groupSum (p :: l) k)
        = ∑ k in S, ((if p.1 = k then p.2 else 0) + groupSum l k) :=
          Finset.sum_congr rfl fun k _ => hco k
      _ = (∑ k in S, if p.1 = k then p.2 else 0) + ∑ k in S, groupSum l k :=
          Finset.sum_add_distrib
      _ = p.2 + (l.map Prod.snd).sum := by
          rw [Finset.sum_ite_eq, if_pos (h p (List.mem_cons_self p l)), hrec]
      _ = ((p :: l).map Prod.snd).sum := by simp

theorem cityListings_keys_eq (rows : List Listing) (t : ℚ) :
    (cityListings rows t).map Prod.fst =
      List.insertionSort sLe
        (firstSeen (((listingShares rows).map (relabelRow t)).map Prod.fst)) := by
  rw [cityListings, List.map_map]
  exact List.map_id _

theorem cityListings_keys_nodup (rows : List Listing) (t : ℚ) :
    ((cityListings rows t).map Prod.fst).Nodup := by
  rw [cityListings_keys_eq]
  exact ((List.perm_insertionSort sLe _).nodup_iff).2 (nodup_firstSeen _)

theorem mem_cityListings_of_label (rows : List Listing) (t : ℚ) (k : String)
    (hk : k ∈ ((listingShares rows).map (relabelRow t)).map Prod.fst) :
    (k, groupSum ((listingShares rows).map (relabelRow t)) k) ∈ cityListings rows t := by
  rw [cityListings]
  exact List.mem_map.2 ⟨k,
    (List.perm_insertionSort sLe _).mem_iff.2 (mem_firstSeen.2 hk), rfl⟩

theorem shares_total (rows : List Listing) (hne : rows ≠ []) :
    ((listingShares rows).map Prod.snd).sum = 100 := by
  have hn : ((rows.length : ℚ)) ≠ 0 :=
    Nat.cast_ne_zero.mpr (List.length_pos.2 hne).ne'
  have h1 : (listingShares rows).map Prod.snd =
      (firstSeen (rows.map Listing.city)).map (shareOf rows) := by
    simp [listingShares, List.map_map, Function.comp_def]
  rw [h1, ← List.sum_toFinset _ (nodup_firstSeen _), toFinset_firstSeen]
  have h2 : (∑ c in (rows.map Listing.city).toFinset,
      (((rows.map Listing.city).count c : ℚ))) = ((rows.length : ℚ)) := by
    have h3 := List.sum_toFinset_count_eq_length (rows.map Listing.city)
    have h4 : ((∑ a in (rows.map Listing.city).toFinset,
        (rows.map Listing.city).count a : ℕ) : ℚ) = (((rows.map Listing.city).length : ℕ) : ℚ) := by
      exact_mod_cast congrArg (fun n : ℕ => (n : ℚ)) h3
    rw [Nat.cast_sum] at h4
    simpa using h4
  simp only [shareOf]
  rw [← Finset.sum_mul, ← Finset.sum_div, h2, div_self hn, one_mul]

theorem labels_eq (rows : List Listing) (t : ℚ) :
    ((listingShares rows).map (relabelRow t)).map Prod.fst =
      (firstSeen (rows.map Listing.city)).map (labelOf rows t) := by
  simp only [listingShares, List.map_map]
  rfl

theorem nonOther_count (rows : List Listing) (t : ℚ) :
    ((cityListings rows t).filter fun p => !(p.1 == "Other")).length =
    ((rows.map Listing.city).toFinset.filter
      fun c => t ≤ shareOf rows c ∧ c ≠ "Other").card := by
  rw [cityListings, filter_map_eq, List.length_map]
  dsimp only
  rw [← List.countP_eq_length_filter,
      (List.perm_insertionSort sLe _).countP_eq,
      List.countP_eq_length_filter,
      ← List.toFinset_card_of_nodup ((nodup_firstSeen _).filter _),
      List.toFinset_filter, toFinset_firstSeen, labels_eq,
      toFinset_map_eq_image, toFinset_firstSeen]
  congr 1
  ext x
  simp only [Finset.mem_filter, Finset.mem_image, List.mem_toFinset,
    Bool.not_eq_true', beq_eq_false_iff_ne, ne_eq]
  constructor
  · rintro ⟨⟨c, hc, rfl⟩, hxO⟩
    by_cases hle : t ≤ shareOf rows c
    · have hlab : labelOf rows t c = c := if_pos hle
      rw [hlab] at hxO ⊢
      exact ⟨hc, hle, hxO⟩
    · have hlab : labelOf rows t c = "Other" := if_neg hle
      rw [hlab] at hxO
      exact absurd rfl hxO
  · rintro ⟨hx, hle, hxO⟩
    exact ⟨⟨x, hx, if_pos hle⟩, hxO⟩

theorem nodup_filter_eq_singleton {c : String} :
    ∀ l : List String, l.Nodup → c ∈ l → l.filter (· == c) = [c]
  | [], _, h => absurd h (List.not_mem_nil c)
  | a :: l, hnd, hmem => by
    obtain ⟨hna, hnd2⟩ := List.nodup_cons.1 hnd
    rcases List.mem_cons.1 hmem with rfl | hmem
    · have hz : l.filter (· == c) = [] := by
        refine List.filter_eq_nil_iff.2 fun x hx hb => ?_
        rw [beq_iff_eq] at hb
        subst hb
        exact hna hx
      simp [List.filter_cons, hz]
    · have hac : ¬(a == c) = true := by
        intro hb
        rw [beq_iff_eq] at hb
        subst hb
        exact hna hmem
      rw [List.filter_cons, if_neg hac]
      exact nodup_filter_eq_singleton l hnd2 hmem

/-- Claim C1: for every dataset and constraint set, `filtered_data` contains
only rows satisfying all five predicates simultaneously (no false positives),
contains every row of the dataset satisfying them (no false negatives), and
its rows appear in the original dataset order (it is a sublist of the
dataset). -/
theorem C1_filter_exact (df : List Listing) (c : Constraints) :
    List.Sublist (filteredData df c) df ∧
    (∀ r ∈ filteredData df c, matchesSpec c r) ∧
    (∀ r ∈ df, matchesSpec c r → r ∈ filteredData df c) := by
  refine ⟨List.filter_sublist df, fun r hr => ?_, fun r hr hm => ?_⟩
  · exact (rowMatches_iff c r).1 (List.of_mem_filter hr)
  · exact List.mem_filter.2 ⟨hr, (rowMatches_iff c r).2 hm⟩

/-- Witness for C1 at a concrete dataset and constraint set. -/
theorem C1_filter_exact_witness :
    mkRow "A" 100 ∈ filteredData [mkRow "A" 100, mkRow "B" 200] (mkCons ["A"]) := by
  refine (C1_filter_exact [mkRow "A" 100, mkRow "B" 200] (mkCons ["A"])).2.2
    (mkRow "A" 100) (by simp) ?_
  refine ⟨⟨?_, ?_⟩, by simp [mkRow, mkCons], ⟨?_, ?_⟩, ⟨?_, ?_⟩, ⟨?_, ?_⟩⟩ <;>
    norm_num [mkRow, mkCons]

/-- Counterexample to claim C2: the city-membership tagging is not pure.
Running the map tab's column assignments on a freshly loaded one-row dataset
changes the dataframe stored in `df`: the row acquires
`Selected = False` and `Color = [200, 30, 0, 160]`. -/
theorem C2_counterexample :
    tab4State [mkRow "A" 100] [] ≠ [mkRow "A" 100] := by
  simp [tab4State, tagSelected, tagColor, mkRow, Listing.mk.injEq]

/-- Claim C2 as amended: the tagging writes only the two derived columns
`Selected` and `Color`; every column present at load time is left unchanged
by the map tab, for every dataset and every city selection. -/
theorem C2_amended_core_columns_immutable (df : List Listing) (cities : List String) :
    (tab4State df cities).map coreOf = df.map coreOf := by
  simp [tab4State, tagSelected, tagColor, coreOf, List.map_map, Function.comp_def]

/-- Claim C3: for every constraint set whose filtered view is empty, tab 1
signals the explicit no-data outcome instead of computing means; for every
non-empty filtered view it reports values that are the arithmetic means of
Price, Square Feet, Beds and Baths over the view (stated product-form:
mean times row count equals the column sum). -/
theorem C3_summarize_empty_guard (df : List Listing) (c : Constraints) :
    (filteredData df c = [] → tab1Summary (filteredData df c) = none) ∧
    (filteredData df c ≠ [] → ∃ s, tab1Summary (filteredData df c) = some s ∧
      s.avgPrice * ((filteredData df c).length : ℚ) = ((filteredData df c).map Listing.price).sum ∧
      s.avgSqft * ((filteredData df c).length : ℚ) = ((filteredData df c).map Listing.sqft).sum ∧
      s.avgBeds * ((filteredData df c).length : ℚ) = ((filteredData df c).map Listing.beds).sum ∧
      s.avgBaths * ((filteredData df c).length : ℚ) = ((filteredData df c).map Listing.baths).sum) := by
  set v := filteredData df c with hv
  constructor
  · intro h
    simp [tab1Summary, h]
  · intro h
    have hlen : ((v.length : ℚ)) ≠ 0 :=
      Nat.cast_ne_zero.mpr (List.length_pos.2 h).ne'
    refine ⟨{ avgPrice := colMean (v.map Listing.price), avgSqft := colMean (v.map Listing.sqft),
              avgBeds := colMean (v.map Listing.beds), avgBaths := colMean (v.map Listing.baths) },
            by simp [tab1Summary, List.isEmpty_iff, h], ?_, ?_, ?_, ?_⟩ <;>
      simp [colMean, div_mul_cancel₀ _ hlen]

/-- Witness for C3: the empty branch at an unsatisfiable constraint set and
the non-empty branch on a two-row view whose average price is 200. -/
theorem C3_summarize_empty_guard_witness :
    (tab1Summary (filteredData [mkRow "A" 100, mkRow "A" 300] (mkCons [])) = none) ∧
    (∃ s, tab1Summary (filteredData [mkRow "A" 100, mkRow "A" 300] (mkCons ["A"])) = some s ∧
      s.avgPrice * ((filteredData [mkRow "A" 100, mkRow "A" 300] (mkCons ["A"])).length : ℚ) =
        ((filteredData [mkRow "A" 100, mkRow "A" 300] (mkCons ["A"])).map Listing.price).sum) := by
  have hm : rowMatches (mkCons ["A"]) (mkRow "A" 100) = true := by
    refine (rowMatches_iff _ _).2 ⟨⟨?_, ?_⟩, by simp [mkRow, mkCons], ⟨?_, ?_⟩, ⟨?_, ?_⟩, ⟨?_, ?_⟩⟩ <;>
      norm_num [mkRow, mkCons]
  have hne : filteredData [mkRow "A" 100, mkRow "A" 300] (mkCons ["A"]) ≠ [] := by
    simp [filteredData, List.filter_cons, hm]
  obtain ⟨s, hs, h1, -⟩ := (C3_summarize_empty_guard [mkRow "A" 100, mkRow "A" 300] (mkCons ["A"])).2 hne
  exact ⟨(C3_summarize_empty_guard _ _).1 (by simp [filteredData, rowMatches, mkCons]), s, hs, h1⟩

/-- Claim C4 as amended: `city_avg_price` groups all rows (not the filtered
view) by city, each reported value is the mean price of its city's group,
each distinct city appears exactly once (the key list is a permutation of
the distinct cities), and the output is sorted by strictly descending
average with ties broken by descending lexicographic city order. -/
theorem C4_group_average (rows : List Listing) :
    ((cityAvgPrice rows).map Prod.fst).Perm (firstSeen (rows.map Listing.city)) ∧
    (∀ p ∈ cityAvgPrice rows, p.2 = cityMeanPrice rows p.1) ∧
    (cityAvgPrice rows).Pairwise lexDesc := by
  refine ⟨?_, ?_, ?_⟩
  · have h1 : ((cityAvgPrice rows).map Prod.fst).Perm
        (((List.insertionSort (fun p q : String × ℚ => p.2 ≤ q.2)
          ((sortedCities rows).map fun c => (c, cityMeanPrice rows c)))).map Prod.fst) := by
      rw [cityAvgPrice, List.map_reverse]
      exact (List.reverse_perm _)
    have h2 := (List.perm_insertionSort (fun p q : String × ℚ => p.2 ≤ q.2)
      ((sortedCities rows).map fun c => (c, cityMeanPrice rows c))).map Prod.fst
    have h3 : (((sortedCities rows).map fun c => (c, cityMeanPrice rows c)).map Prod.fst) =
        sortedCities rows := by
      simp [List.map_map, Function.comp_def]
    refine (h1.trans (h2.trans ?_))
    rw [h3]
    exact List.perm_insertionSort sLe _
  · intro p hp
    have hp1 : p ∈ (sortedCities rows).map fun c => (c, cityMeanPrice rows c) := by
      rw [cityAvgPrice] at hp
      exact (List.perm_insertionSort (fun p q : String × ℚ => p.2 ≤ q.2) _).mem_iff.1
        (List.mem_reverse.1 hp)
    obtain ⟨c, -, rfl⟩ := List.mem_map.1 hp1
    rfl
  · rw [cityAvgPrice]
    refine List.pairwise_reverse.2 ?_
    have := pairwise_lexAsc_insertionSort
      ((sortedCities rows).map fun c => (c, cityMeanPrice rows c))
      (List.pairwise_map.2 ?_)
    · exact this.imp fun {p q} h => by
        rcases h with h | ⟨h, h2⟩
        · exact Or.inl h
        · exact Or.inr ⟨h.symm, h2⟩
    · exact (sortedCities_strict rows).imp fun {a b} h => h

/-- Counterexample to claim C4: with cities first seen in the order A, B and
equal average prices, `city_avg_price` returns the tie in the order B, A
(groupby lists keys alphabetically and the descending value sort reverses
ties), not the first-seen order A, B that the claim states. -/
theorem C4_counterexample :
    cityAvgPrice rows4 = [("B", 100), ("A", 100)] ∧
    groupAverageFirstSeen rows4 = [("A", 100), ("B", 100)] ∧
    cityAvgPrice rows4 ≠ groupAverageFirstSeen rows4 := by
  refine ⟨cityAvgPrice_rows4_eval, groupAverageFirstSeen_rows4_eval, ?_⟩
  rw [cityAvgPrice_rows4_eval, groupAverageFirstSeen_rows4_eval]
  simp [show ("B" : String) ≠ "A" by decide]

/-- Witness for the amended C4 at a concrete dataset: the key permutation
clause, and the mean-price clause instantiated at the head entry. -/
theorem C4_group_average_witness :
    ((cityAvgPrice rows4).map Prod.fst).Perm (firstSeen (rows4.map Listing.city)) ∧
    (100 : ℚ) = cityMeanPrice rows4 "B" := by
  obtain ⟨h1, h2, -⟩ := C4_group_average rows4
  refine ⟨h1, h2 ("B", 100) ?_⟩
  rw [cityAvgPrice_rows4_eval]
  simp

/-- Claim C5: on a non-empty dataset, for every threshold the returned
percentages sum to exactly 100 under rational arithmetic; the output carries
each label at most once (a single "Other" bucket); and whenever some group
falls below the threshold (and no city is itself named "Other"), the output
contains the synthetic "Other" entry whose percentage is precisely the sum
of the below-threshold groups' percentages. -/
theorem C5_market_share (rows : List Listing) (t : ℚ) (hne : rows ≠ []) :
    ((cityListings rows t).map Prod.snd).sum = 100 ∧
    ((cityListings rows t).map Prod.fst).Nodup ∧
    ("Other" ∉ rows.map Listing.city →
      (∃ p ∈ listingShares rows, p.2 < t) →
      ("Other", (((listingShares rows).filter fun p => decide (p.2 < t)).map Prod.snd).sum)
        ∈ cityListings rows t) := by
  refine ⟨?_, cityListings_keys_nodup rows t, ?_⟩
  · have hsnd : (cityListings rows t).map Prod.snd =
        (List.insertionSort sLe
          (firstSeen (((listingShares rows).map (relabelRow t)).map Prod.fst))).map
          (groupSum ((listingShares rows).map (relabelRow t))) := by
      rw [cityListings, List.map_map]
      rfl
    have hnodup : (List.insertionSort sLe
        (firstSeen (((listingShares rows).map (relabelRow t)).map Prod.fst))).Nodup :=
      ((List.perm_insertionSort sLe _).nodup_iff).2 (nodup_firstSeen _)
    have hfin : (List.insertionSort sLe
        (firstSeen (((listingShares rows).map (relabelRow t)).map Prod.fst))).toFinset =
        (((listingShares rows).map (relabelRow t)).map Prod.fst).toFinset := by
      rw [List.toFinset_eq_of_perm _ _ (List.perm_insertionSort sLe _), toFinset_firstSeen]
    rw [hsnd, ← List.sum_toFinset _ hnodup, hfin,
        sum_groupSum _ _ fun p hp => List.mem_toFinset.2 (List.mem_map_of_mem Prod.fst hp)]
    have hsnd2 : (((listingShares rows).map (relabelRow t)).map Prod.snd) =
        (listingShares rows).map Prod.snd := by
      simp [List.map_map, Function.comp_def, relabelRow]
    rw [hsnd2, shares_total rows hne]
  · rintro hOther ⟨p, hp, hplt⟩
    have hmem : "Other" ∈ ((listingShares rows).map (relabelRow t)).map Prod.fst := by
      refine List.mem_map.2 ⟨relabelRow t p, List.mem_map_of_mem _ hp, ?_⟩
      simp [relabelRow, not_le.2 hplt]
    have hG : groupSum ((listingShares rows).map (relabelRow t)) "Other"
        = (((listingShares rows).filter fun p => decide (p.2 < t)).map Prod.snd).sum := by
      rw [groupSum, filter_map_eq]
      have hcong : ∀ a ∈ listingShares rows,
          ((relabelRow t a).1 == "Other") = decide (a.2 < t) := by
        intro a ha
        obtain ⟨c, hc, rfl⟩ := List.mem_map.1 ha
        have hcO : c ≠ "Other" := fun h => hOther (h ▸ mem_firstSeen.1 hc)
        by_cases hle : t ≤ shareOf rows c
        · simp [relabelRow, hle, hcO, not_lt.2 hle]
        · simp [relabelRow, hle, not_le.1 hle]
      rw [List.filter_congr hcong, List.map_map]
      have : (Prod.snd ∘ relabelRow t) = Prod.snd := by
        funext q
        simp [relabelRow]
      rw [this]
    exact hG ▸ mem_cityListings_of_label rows t "Other" hmem

/-- Witness for C5 at threshold 40 on `rows5`: the percentages sum to 100
and B's below-threshold third is carried by the "Other" bucket. -/
theorem C5_market_share_witness :
    ((cityListings rows5 40).map Prod.snd).sum = 100 ∧
    ("Other", (((listingShares rows5).filter fun p => decide (p.2 < 40)).map Prod.snd).sum)
      ∈ cityListings rows5 40 := by
  obtain ⟨h1, -, h3⟩ := C5_market_share rows5 40 (by simp [rows5])
  refine ⟨h1, h3 ?_ ⟨("B", shareOf rows5 "B"), ?_, ?_⟩⟩
  · simp [rows5, mkRow, show ("Other" : String) ≠ "A" by decide,
      show ("Other" : String) ≠ "B" by decide]
  · simp [listingShares, rows5, mkRow, firstSeen, firstSeenAux,
      show ("A" : String) ≠ "B" by decide, show ("B" : String) ≠ "A" by decide]
  · norm_num [shareOf, rows5, mkRow, List.count_cons,
      show ("A" : String) ≠ "B" by decide, show ("B" : String) ≠ "A" by decide]

/-- Claim C6: raising the threshold never increases the number of returned
non-"Other" groups. -/
theorem C6_threshold_antitone (rows : List Listing) (t1 t2 : ℚ) (h : t1 ≤ t2) :
    ((cityListings rows t2).filter fun p => !(p.1 == "Other")).length ≤
    ((cityListings rows t1).filter fun p => !(p.1 == "Other")).length := by
  rw [nonOther_count, nonOther_count]
  exact Finset.card_le_card
    (Finset.monotone_filter_right _ fun c hc => ⟨h.trans hc.1, hc.2⟩)

/-- Witness for C6 on `rows5` with thresholds 30 ≤ 50. -/
theorem C6_threshold_antitone_witness :
    ((cityListings rows5 50).filter fun p => !(p.1 == "Other")).length ≤
    ((cityListings rows5 30).filter fun p => !(p.1 == "Other")).length :=
  C6_threshold_antitone rows5 30 50 (by norm_num)

/-- Claim C7: filtering an already-filtered view again with the same
constraints returns the same view. -/
theorem C7_filter_idempotent (df : List Listing) (c : Constraints) :
    filteredData (filteredData df c) c = filteredData df c := by
  refine List.filter_eq_self.2 fun r hr => ?_
  exact List.of_mem_filter hr

/-- Claim C8: a constraint set with any inverted range (a min bound strictly
above the corresponding max bound) matches no row, so `filtered_data` is the
empty selection; the boolean-mask evaluation is total, so nothing is
raised. -/
theorem C8_inverted_range_empty (df : List Listing) (c : Constraints)
    (h : c.priceMax < c.priceMin ∨ c.bedsMax < c.bedsMin ∨
         c.bathsMax < c.bathsMin ∨ c.sqftMax < c.sqftMin) :
    filteredData df c = [] := by
  refine List.filter_eq_nil_iff.2 fun r hr hm => ?_
  obtain ⟨⟨h1, h2⟩, -, ⟨h3, h4⟩, ⟨h5, h6⟩, ⟨h7, h8⟩⟩ := (rowMatches_iff c r).1 hm
  rcases h with h | h | h | h <;> linarith

/-- Witness for C8: a concrete inverted price range yields the empty view. -/
theorem C8_inverted_range_empty_witness :
    filteredData [mkRow "A" 100] { mkCons ["A"] with priceMin := 10, priceMax := 5 } = [] :=
  C8_inverted_range_empty _ _ (Or.inl (by norm_num [mkCons]))

/-- Claim C9: with an empty city selection, `df["City"].isin([])` is false on
every row, so `filtered_data` is empty whatever the range bounds are. -/
theorem C9_empty_cities (df : List Listing) (c : Constraints)
    (h : c.cities = []) :
    filteredData df c = [] := by
  refine List.filter_eq_nil_iff.2 fun r hr hm => ?_
  have := ((rowMatches_iff c r).1 hm).2.1
  simp [h] at this

/-- Witness for C9 at a concrete dataset. -/
theorem C9_empty_cities_witness :
    filteredData [mkRow "A" 100, mkRow "B" 200] (mkCons []) = [] :=
  C9_empty_cities _ _ rfl

/-- Claim C10: the threshold comparison of line 301 is inclusive: a city
whose percentage share equals the threshold exactly is kept under its own
label, with its own percentage, rather than merged into "Other". -/
theorem C10_threshold_inclusive (rows : List Listing) (t : ℚ) (c : String)
    (hc : c ∈ rows.map Listing.city) (hcO : c ≠ "Other")
    (hs : shareOf rows c = t) :
    (c, t) ∈ cityListings rows t := by
  have hkeep : t ≤ shareOf rows c := le_of_eq hs.symm
  have hlblc : c ∈ ((listingShares rows).map (relabelRow t)).map Prod.fst := by
    rw [labels_eq]
    refine List.mem_map.2 ⟨c, mem_firstSeen.2 hc, ?_⟩
    exact if_pos hkeep
  have hGc : groupSum ((listingShares rows).map (relabelRow t)) c = shareOf rows c := by
    rw [groupSum, filter_map_eq]
    have hcong : ∀ a ∈ listingShares rows,
        ((relabelRow t a).1 == c) = (a.1 == c) := by
      intro a ha
      obtain ⟨c', hc', rfl⟩ := List.mem_map.1 ha
      by_cases hle : t ≤ shareOf rows c'
      · simp [relabelRow, hle]
      · have hcc : c' ≠ c := fun h => hle (h ▸ hkeep)
        simp [relabelRow, hle, Ne.symm hcO, hcc]
    rw [List.filter_congr hcong, listingShares, filter_map_eq]
    dsimp only
    rw [nodup_filter_eq_singleton _ (nodup_firstSeen _) (mem_firstSeen.2 hc)]
    simp [relabelRow]
  have hout := mem_cityListings_of_label rows t c hlblc
  rw [hGc, hs] at hout
  exact hout

/-- Witness for C10: in `rows5`, city A's share is exactly 200/3, and with
the threshold set to 200/3 it is kept under its own label. -/
theorem C10_threshold_inclusive_witness :
    ("A", (200 : ℚ) / 3) ∈ cityListings rows5 (200 / 3) := by
  refine C10_threshold_inclusive rows5 (200 / 3) "A" ?_ (by decide) ?_
  · simp [rows5, mkRow]
  · norm_num [shareOf, rows5, mkRow, List.count_cons,
      show ("A" : String) ≠ "B" by decide, show ("B" : String) ≠ "A" by decide]
